import Mathlib

/-!
Shallow embedding of `src/cookView.ts` of the cooklang-obsidian plugin
(the `CookView` class): time formatters, asset binding by sibling-file
naming convention, the preview renderer, the per-timer countdown state
machine, and the view-mode controller.  Text at the host boundary
(file base names, document text) is modelled as `List Char`; rendered
labels are `String`.  Machine timestamps are milliseconds as `Int`.
-/

namespace Cook

/-! ## Time formatters (`formatTime`, `formatTimeForTimer`) -/

/-- Model of JavaScript `n.toString().padStart(2, '0')` for a natural
number: pad the decimal representation on the left with `'0'` up to
length 2. -/
def pad2 (n : Nat) : String :=
  let s := toString n
  if s.length < 2 then "0" ++ s else s

/-- Embeds `CookView.formatTime(time, showSeconds)` (cookView.ts lines
538-550): coarse `Xh Ym` / `Xm` / `Xs` summary formatting. -/
def formatTime (time : Nat) (showSeconds : Bool) : String :=
  let hours := time / 3600
  let minutes := (time % 3600) / 60
  let seconds := time % 60
  if 0 < hours then
    toString hours ++ "h " ++ toString minutes ++ "m" ++
      (if showSeconds then " " ++ toString seconds ++ "s" else "")
  else if 0 < minutes then
    toString minutes ++ "m" ++
      (if showSeconds then " " ++ toString seconds ++ "s" else "")
  else
    toString seconds ++ "s"

/-- Embeds `CookView.formatTimeForTimer(time)` (cookView.ts lines
552-562): live-countdown `H:MM:SS` / `M:SS` formatting. -/
def formatTimeForTimer (time : Nat) : String :=
  let hours := time / 3600
  let minutes := (time % 3600) / 60
  let seconds := time % 60
  if 0 < hours then
    toString hours ++ ":" ++ pad2 minutes ++ ":" ++ pad2 seconds
  else
    toString minutes ++ ":" ++ pad2 seconds

/-! ## JavaScript string primitives used by the asset binder -/

/-- `l` starts with `p` (model of JS `String.startsWith`), on char lists. -/
def listStartsWith : List Char → List Char → Bool
  | [], _ => true
  | _ :: _, [] => false
  | p :: ps, c :: cs => p == c && listStartsWith ps cs

/-- Model of JS `String.split(sep)` for a single-character separator:
always returns at least one (possibly empty) component. -/
def splitOnChar (c : Char) : List Char → List (List Char)
  | [] => [[]]
  | x :: xs =>
    match splitOnChar c xs with
    | [] => [[x]]
    | h :: t => if x = c then [] :: h :: t else (x :: h) :: t

/-- Decimal digit value of a character, if any. -/
def decDigit (c : Char) : Option Nat :=
  if '0' ≤ c && c ≤ '9' then some (c.toNat - '0'.toNat) else none

/-- Hexadecimal digit value of a character, if any. -/
def hexDigit (c : Char) : Option Nat :=
  match decDigit c with
  | some d => some d
  | none =>
    if 'a' ≤ c && c ≤ 'f' then some (c.toNat - 'a'.toNat + 10)
    else if 'A' ≤ c && c ≤ 'F' then some (c.toNat - 'A'.toNat + 10)
    else none

/-- Accumulate the value of the longest run of leading digits; `none`
when there is no leading digit at all (JS `parseInt` yields `NaN`). -/
def takeDigits (dig : Char → Option Nat) (base : Nat) :
    Nat → Bool → List Char → Option Nat
  | acc, found, [] => if found then some acc else none
  | acc, found, c :: cs =>
    match dig c with
    | some d => takeDigits dig base (acc * base + d) true cs
    | none => if found then some acc else none

/-- Magnitude part of JS `parseInt` with no explicit radix: a leading
`0x`/`0X` selects hexadecimal, otherwise decimal; `none` models `NaN`. -/
def parseIntMag : List Char → Option Nat
  | '0' :: 'x' :: rest => takeDigits hexDigit 16 0 false rest
  | '0' :: 'X' :: rest => takeDigits hexDigit 16 0 false rest
  | l => takeDigits decDigit 10 0 false l

/-- Model of the JS builtin `parseInt(s)` as used on cookView.ts line
344: skip leading whitespace, optional sign, then the leading
hexadecimal or decimal numeral; trailing non-digit characters are
ignored; `none` models `NaN`. -/
def parseIntJS (l : List Char) : Option Int :=
  match l.dropWhile Char.isWhitespace with
  | '-' :: rest => (parseIntMag rest).map (fun n => -(n : Int))
  | '+' :: rest => (parseIntMag rest).map (fun n => (n : Int))
  | rest => (parseIntMag rest).map (fun n => (n : Int))

/-! ## Asset binding (cookView.ts lines 331-349) -/

/-- Model of an Obsidian `TFile` sibling as the binder reads it:
`basename` (name without final extension), `extension`, full `name`. -/
structure TFile where
  basename : List Char
  extension : List Char
  name : List Char
deriving DecidableEq

/-- The fixed raster-image allow-list of cookView.ts line 337. -/
def acceptedExt (e : List Char) : Bool :=
  e == "jpg".toList || e == "jpeg".toList || e == "png".toList || e == "gif".toList

/-- The image bindings the render pass writes onto the recipe object:
`recipe.image` and `recipe.steps[s].image`. -/
structure Bindings where
  main : Option TFile
  stepImg : Nat → Option TFile

/-- No bindings (freshly parsed recipe). -/
def noBindings : Bindings := ⟨none, fun _ => none⟩

/-- The sibling pre-filter of cookView.ts line 334: base name equal to
the document's base name or extending it with a dot, and not the
document itself. -/
def siblingFilter (base docName : List Char) (f : TFile) : Bool :=
  (f.basename == base || listStartsWith (base ++ ['.']) f.basename)
    && f.name != docName

/-- One iteration of the `otherFiles.forEach` loop of cookView.ts lines
335-349: accepted extensions only; an exact base-name match becomes the
main image, otherwise `split('.')` must give exactly two components and
`parseInt` of the second must land in `[0, steps.length)`. -/
def applyFile (base : List Char) (nSteps : Nat) (b : Bindings) (f : TFile) :
    Bindings :=
  if acceptedExt f.extension then
    if f.basename == base then { b with main := some f }
    else
      match splitOnChar '.' f.basename with
      | [_, p1] =>
        match parseIntJS p1 with
        | some s =>
          if 0 ≤ s ∧ s < (nSteps : Int) then
            { b with stepImg := Function.update b.stepImg s.toNat (some f) }
          else b
        | none => b
      | _ => b
  else b

/-- The whole binding pass of cookView.ts lines 334-349: filter the
siblings, then fold the assignment loop over them in order. -/
def computeBindings (base docName : List Char) (nSteps : Nat)
    (siblings : List TFile) : Bindings :=
  (siblings.filter (siblingFilter base docName)).foldl (applyFile base nSteps)
    noBindings

/-! ## Recipe model (the cooklang parser's output, as the renderer reads it) -/

/-- Ingredient entity as the renderer reads it; amounts and units are
kept in their stringified form (`String(ingredient.amount)`). -/
structure Ingredient where
  name : Option String
  amount : Option String
  units : Option String
deriving DecidableEq

/-- Cookware entity as the renderer reads it (the renderer only reads
`name` and an optional `amount`). -/
structure Cookware where
  name : Option String
  amount : Option String
deriving DecidableEq

/-- Timer occurrence as the renderer reads it; `amount` is the duration
in seconds (the renderer feeds it to `formatTime` and to the countdown
arithmetic, both of which treat it as seconds). -/
structure TimerOcc where
  amount : Option Nat
  units : Option String
  name : Option String
deriving DecidableEq

/-- One step part: a literal text fragment or an entity reference
(the renderer dispatches on the runtime type, cookView.ts lines 444-483). -/
inductive Part where
  | text (s : String)
  | ingredient (i : Ingredient)
  | cookware (c : Cookware)
  | timer (t : TimerOcc)
deriving DecidableEq

/-- One method step; `parts` embeds `(step as any).text || step.line || []`. -/
structure Step where
  parts : List Part
deriving DecidableEq

/-- The parsed recipe model (`new Recipe(text)` of the cooklang library),
restricted to the fields the view reads. -/
structure Recipe where
  ingredients : List Ingredient
  cookware : List Cookware
  timers : List TimerOcc
  steps : List Step
deriving DecidableEq

/-- Modelled from the spec: `recipe.calculateTotalTime()` lives in the
external cooklang library, not in src/; the spec fixes its contract as
"the sum of all top-level timer amounts in the aggregate list", a single
numeric seconds value. -/
def calculateTotalTime (r : Recipe) : Nat :=
  (r.timers.map (fun t => t.amount.getD 0)).sum

/-! ## Render tree (`renderPreview`, cookView.ts lines 323-486) -/

/-- Fixed per-widget data captured by `makeTimer`'s closure: the bound
seconds (`part.amount ?? 0`), the bound name (`part.name ?? ''`), and
whether the button holds an `.amount` span for `querySelector` to find
(created only when `part.amount` was present, cookView.ts line 475). -/
structure TimerCfg where
  seconds : Nat
  name : String
  hasAmountEl : Bool
deriving DecidableEq

/-- One rendered `li` of an aggregate list: optional amount span,
optional unit span, then the name text (cookView.ts lines 364-376,
385-394, 403-415; the cookware list never has a unit span). -/
structure ListItem where
  amount : Option String
  units : Option String
  name : String
deriving DecidableEq

/-- One inline fragment of a rendered step (cookView.ts lines 444-483).
For an ingredient the unit is only rendered inside the parenthesized
amount, so it is paired under the amount's option; a timer reference
records its static labels and the `TimerCfg` handed to `makeTimer`. -/
inductive Inline where
  | text (s : String)
  | ingredientRef (name : String) (amount : Option (String × Option String))
  | cookwareRef (name : String) (amount : Option String)
  | timerRef (amountLabel : Option String) (nameLabel : Option String)
      (cfg : TimerCfg)
deriving DecidableEq

/-- One rendered method entry: optional step image, then the parts. -/
structure RStep where
  image : Option TFile
  parts : List Inline
deriving DecidableEq

/-- One top-level block of the preview (header and body are emitted
together by the source, so they are one constructor here). -/
inductive RSection where
  | mainImage (f : TFile)
  | ingredients (items : List ListItem)
  | cookware (items : List ListItem)
  | timers (items : List ListItem)
  | totalTime (text : String)
  | method (steps : List RStep)
deriving DecidableEq

/-- Ingredient `li` (cookView.ts lines 364-376). -/
def ingLi (i : Ingredient) : ListItem :=
  ⟨i.amount, i.units, i.name.getD ""⟩

/-- Cookware `li` (cookView.ts lines 385-394): no unit span. -/
def cwLi (c : Cookware) : ListItem :=
  ⟨c.amount, none, c.name.getD ""⟩

/-- Timer `li` (cookView.ts lines 403-415): `String(timer.amount)`. -/
def tmLi (t : TimerOcc) : ListItem :=
  ⟨t.amount.map toString, t.units, t.name.getD ""⟩

/-- The timer button's name span is rendered under `if (part.name)`,
so a present-but-empty name is not shown (JS truthiness). -/
def nameLabelOf : Option String → Option String
  | some n => if n = "" then none else some n
  | none => none

/-- Render one step part (cookView.ts lines 444-483).  A timer part is
where `makeTimer(button, part.amount ?? 0, part.name ?? '')` binds a
fresh widget. -/
def renderPart : Part → Inline
  | Part.text s => Inline.text s
  | Part.ingredient i =>
    Inline.ingredientRef (i.name.getD "") (i.amount.map (fun a => (a, i.units)))
  | Part.cookware c => Inline.cookwareRef (c.name.getD "") c.amount
  | Part.timer t =>
    Inline.timerRef (t.amount.map (fun a => formatTime a false))
      (nameLabelOf t.name)
      ⟨t.amount.getD 0, t.name.getD "", t.amount.isSome⟩

/-- Render the method steps in order with their indices (the
`recipe.steps.forEach((step, i))` loop, cookView.ts lines 432-485);
the step image is gated by `showImages && step.image`. -/
def renderSteps (showImages : Bool) (b : Bindings) : Nat → List Step → List RStep
  | _, [] => []
  | i, st :: rest =>
    ⟨if showImages then b.stepImg i else none, st.parts.map renderPart⟩
      :: renderSteps showImages b (i + 1) rest

/-- The five display toggles of `CooklangSettings` that `renderPreview`
reads (the settings module is host boilerplate outside src/'s view file;
the five booleans are taken exactly as the view consumes them). -/
structure CookSettings where
  showImages : Bool
  showIngredientList : Bool
  showCookwareList : Bool
  showTimersList : Bool
  showTotalTime : Bool
deriving DecidableEq

/-- The bindings in effect during one render pass: the binding loop of
cookView.ts lines 332-349 runs only inside `if(this.settings.showImages)`. -/
def bindingsFor (s : CookSettings) (base docName : List Char)
    (siblings : List TFile) (r : Recipe) : Bindings :=
  if s.showImages then computeBindings base docName r.steps.length siblings
  else noBindings

/-- The banner-image block of cookView.ts lines 352-355: emitted only
if a main image was bound. -/
def mainImageSeg (b : Bindings) : List RSection :=
  match b.main with
  | some f => [RSection.mainImage f]
  | none => []

/-- The total-time block of cookView.ts lines 418-425: emitted only
for a strictly positive computed total time. -/
def totalTimeSeg (r : Recipe) : List RSection :=
  if 0 < calculateTotalTime r then
    [RSection.totalTime (formatTime (calculateTotalTime r) false)]
  else []

/-- Embeds `CookView.renderPreview(recipe)` (cookView.ts lines 323-486)
as the section list it appends to the emptied `previewEl`.  `none`
embeds the `if (!recipe) return` guard. -/
def renderPreview (s : CookSettings) (base docName : List Char)
    (siblings : List TFile) (rec : Option Recipe) : List RSection :=
  match rec with
  | none => []
  | some r =>
    (if s.showImages then mainImageSeg (bindingsFor s base docName siblings r)
     else [])
    ++ (if s.showIngredientList then
          [RSection.ingredients (r.ingredients.map ingLi)] else [])
    ++ (if s.showCookwareList then
          [RSection.cookware (r.cookware.map cwLi)] else [])
    ++ (if s.showTimersList then
          [RSection.timers (r.timers.map tmLi)] else [])
    ++ (if s.showTotalTime then totalTimeSeg r else [])
    ++ [RSection.method
          (renderSteps s.showImages (bindingsFor s base docName siblings r) 0
            r.steps)]

/-- Section discriminator: main image. -/
def isMainImageSec : RSection → Bool
  | RSection.mainImage _ => true
  | _ => false

/-- Section discriminator: ingredients aggregate list. -/
def isIngredientsSec : RSection → Bool
  | RSection.ingredients _ => true
  | _ => false

/-- Section discriminator: cookware aggregate list. -/
def isCookwareSec : RSection → Bool
  | RSection.cookware _ => true
  | _ => false

/-- Section discriminator: timers aggregate list. -/
def isTimersSec : RSection → Bool
  | RSection.timers _ => true
  | _ => false

/-- Section discriminator: total-time block. -/
def isTotalTimeSec : RSection → Bool
  | RSection.totalTime _ => true
  | _ => false

/-- Section discriminator: method block. -/
def isMethodSec : RSection → Bool
  | RSection.method _ => true
  | _ => false

/-- The step images of the rendered method sections, in order. -/
def stepImagesOf (out : List RSection) : List (Option TFile) :=
  (out.map (fun sec =>
    match sec with
    | RSection.method steps => steps.map RStep.image
    | _ => [])).flatten

/-! ## Timer widget state machine (`makeTimer` / `updateTimer`,
cookView.ts lines 488-536) -/

/-- The mutable state owned by one `makeTimer` closure: the `end`
deadline (ms timestamp, `null` when idle), the `interval` handle, and
whether the enclosing node carries the `running` class. -/
structure WidgetState where
  endTs : Option Int
  interval : Option Nat
  runningMark : Bool
deriving DecidableEq

/-- The two `Howl` players of the view: `alarmAudio` (played on expiry,
cookView.ts line 525) and `timerAudio` (stopped by `stop()`,
cookView.ts line 500). -/
structure AudioState where
  alarmPlaying : Bool
  timerPlaying : Bool
deriving DecidableEq

/-- State observable around one widget's event handlers: the widget
closure variables, the audio players, the emitted completion
notifications, and the countdown text last written into the button's
`.amount` span. -/
structure SysState where
  w : WidgetState
  audio : AudioState
  notifs : List String
  display : Option String
deriving DecidableEq

/-- Widget state before any interaction (fresh `makeTimer`). -/
def initWidget : WidgetState := ⟨none, none, false⟩

/-- Whole-system state before any interaction. -/
def initSys : SysState := ⟨initWidget, ⟨false, false⟩, [], none⟩

/-- The `stop` closure of cookView.ts lines 492-502, widget part:
clear the interval, remove the `running` class, clear the deadline. -/
def stopW (_w : WidgetState) : WidgetState := ⟨none, none, false⟩

/-- The `stop` closure, audio part: `this.timerAudio.stop()` — note the
source stops `timerAudio`, never `alarmAudio`. -/
def stopAud (a : AudioState) : AudioState := { a with timerPlaying := false }

/-- `Math.round((end - now) / 1000)` for ms timestamps: JS `Math.round`
is floor of the argument plus one half, so with integer `d` this is
`⌊(d + 500) / 1000⌋`. -/
def jsRoundDiv1000 (d : Int) : Int := (d + 500).fdiv 1000

/-- The completion-notification body of cookView.ts lines 526-528:
`${name || 'Timer'} for ${formatTimeForTimer(totalSeconds)} is done!`
(JS `||` treats the empty string as falsy). -/
def notifBody (cfg : TimerCfg) : String :=
  (if cfg.name = "" then "Timer" else cfg.name) ++ " for " ++
    formatTimeForTimer cfg.seconds ++ " is done!"

/-- The click handler of cookView.ts lines 504-516 on the widget state
alone: activate from idle (deadline `now + seconds * 1000`, mark
running, schedule interval `newId`), otherwise `stop()`. -/
def clickW (cfg : TimerCfg) (w : WidgetState) (now : Int) (newId : Nat) :
    WidgetState :=
  if w.endTs = none then ⟨some (now + cfg.seconds * 1000), some newId, true⟩
  else stopW w

/-- The click handler on the whole system state: audio is only touched
on the `stop()` path. -/
def clickEv (cfg : TimerCfg) (s : SysState) (now : Int) (newId : Nat) :
    SysState :=
  if s.w.endTs = none then { s with w := clickW cfg s.w now newId }
  else { s with w := stopW s.w, audio := stopAud s.audio }

/-- `updateTimer` (cookView.ts lines 519-536) as fired by the scheduled
interval at wall-clock `now`: on `remaining <= 0` run `stop()`, start
the alarm, and append the completion notification; otherwise rewrite
the countdown text (only when an `.amount` span exists).  The `none`
deadline case cannot fire while an interval is live (the handler
dereferences `end!`); it is modelled as a no-op. -/
def tickEv (cfg : TimerCfg) (s : SysState) (now : Int) : SysState :=
  match s.w.endTs with
  | none => s
  | some e =>
    let remaining := jsRoundDiv1000 (e - now)
    if remaining ≤ 0 then
      { w := stopW s.w
        audio := { alarmPlaying := true, timerPlaying := false }
        notifs := s.notifs ++ [notifBody cfg]
        display := s.display }
    else
      { s with display :=
          if cfg.hasAmountEl then some (formatTimeForTimer remaining.toNat)
          else s.display }

/-- States reachable from a fresh widget through its event handlers:
clicks at arbitrary times, and ticks, which only fire while an interval
is scheduled. -/
inductive Reach (cfg : TimerCfg) : SysState → Prop where
  | init : Reach cfg initSys
  | click (s : SysState) (now : Int) (newId : Nat) :
      Reach cfg s → Reach cfg (clickEv cfg s now newId)
  | tick (s : SysState) (now : Int) :
      Reach cfg s → s.w.interval ≠ none → Reach cfg (tickEv cfg s now)

/-! ## Re-render teardown (cookView.ts line 326 and `makeTimer` spawns) -/

/-- All widget configurations spawned by one rendered tree, in order:
one `makeTimer` call per timer reference inside the method section. -/
def timerCfgsOf (out : List RSection) : List TimerCfg :=
  (out.map (fun sec =>
    match sec with
    | RSection.method steps =>
      (steps.map (fun st =>
        (st.parts.map (fun p =>
          match p with
          | Inline.timerRef _ _ cfg => [cfg]
          | _ => [])).flatten)).flatten
    | _ => [])).flatten

/-- The population of widget closures alive in the page: those whose
DOM is currently attached to `previewEl`, and those whose DOM was
discarded by `previewEl.empty()` but whose closures (and any scheduled
intervals) persist. -/
structure PreviewSys where
  attached : List (TimerCfg × WidgetState)
  detached : List (TimerCfg × WidgetState)
deriving DecidableEq

/-- A render pass as it affects the widget population: `previewEl`
is emptied (detaching every current widget's DOM — nothing in
`renderPreview` touches any `interval`), then fresh idle widgets are
spawned for the new tree's timer references. -/
def renderPass (s : CookSettings) (base docName : List Char)
    (siblings : List TFile) (rec : Option Recipe) (p : PreviewSys) :
    PreviewSys :=
  { attached :=
      (timerCfgsOf (renderPreview s base docName siblings rec)).map
        (fun c => (c, initWidget))
    detached := p.detached ++ p.attached }

/-- Deliver a click to the `i`-th attached widget. -/
def clickNth : List (TimerCfg × WidgetState) → Nat → Int → Nat →
    List (TimerCfg × WidgetState)
  | [], _, _, _ => []
  | wc :: rest, 0, now, newId => (wc.1, clickW wc.1 wc.2 now newId) :: rest
  | wc :: rest, Nat.succ n, now, newId => wc :: clickNth rest n now newId

/-- Click the `i`-th attached widget of the live preview. -/
def clickAttached (p : PreviewSys) (i : Nat) (now : Int) (newId : Nat) :
    PreviewSys :=
  { p with attached := clickNth p.attached i now newId }

/-- Number of live tick schedules across all widget closures, attached
or discarded. -/
def liveSchedules (p : PreviewSys) : Nat :=
  ((p.attached ++ p.detached).filter (fun wc => wc.2.interval.isSome)).length

/-! ## View-mode controller (`switchMode`, `setViewData`, `clear`,
cookView.ts lines 209-298) -/

/-- The two presentation modes. -/
inductive Mode where
  | source
  | preview
deriving DecidableEq

/-- The view-level mutable state the controller operates on. -/
structure CookViewState where
  data : List Char
  editorDoc : List Char
  recipe : Option Recipe
  currentView : Mode
  previewSections : List RSection
  previewVisible : Bool
  sourceVisible : Bool

/-- The host environment a render pass reads: the document's base name
and full name, its sibling files, and the plugin settings. -/
structure RenderEnv where
  base : List Char
  docName : List Char
  siblings : List TFile
  settings : CookSettings

/-- A CodeMirror dispatch `{changes: {from, to, insert}}` on the
document text. -/
def cmReplace (doc : List Char) (a b : Nat) (ins : List Char) : List Char :=
  doc.take a ++ ins ++ doc.drop b

/-- Embeds `setViewData(data, clear)` (cookView.ts lines 261-285): both
branches of the `clear` flag issue the identical whole-document
replacement; then the model is re-parsed, and only in preview mode is
the preview re-rendered. -/
def setViewData (parse : List Char → Recipe) (env : RenderEnv)
    (st : CookViewState) (d : List Char) (clear : Bool) : CookViewState :=
  let st1 := { st with data := d }
  let st2 :=
    if clear then
      { st1 with editorDoc := cmReplace st1.editorDoc 0 st1.editorDoc.length d }
    else
      { st1 with editorDoc := cmReplace st1.editorDoc 0 st1.editorDoc.length d }
  let st3 := { st2 with recipe := some (parse d) }
  if st3.currentView = Mode.preview then
    { st3 with previewSections :=
        (renderPreview env.settings env.base env.docName env.siblings
          st3.recipe) }
  else st3

/-- Embeds `clear()` (cookView.ts lines 288-298): empty the preview,
clear the editor document, reset the local text — `this.recipe` is not
touched. -/
def clearView (st : CookViewState) : CookViewState :=
  { st with
      previewSections := []
      editorDoc := cmReplace st.editorDoc 0 st.editorDoc.length []
      data := [] }

/-- Embeds the explicit-target arm of `switchMode` (cookView.ts lines
228-249): entering preview re-renders from the current model and flips
the surfaces; entering source flips them back. -/
def switchMode (env : RenderEnv) (st : CookViewState) (mode : Mode) :
    CookViewState :=
  if mode = Mode.preview then
    { st with
        currentView := Mode.preview
        previewSections :=
          renderPreview env.settings env.base env.docName env.siblings
            st.recipe
        previewVisible := true
        sourceVisible := false }
  else
    { st with
        currentView := Mode.source
        previewVisible := false
        sourceVisible := true }

/-! ## Concrete sample data for witnesses and counterexamples -/

/-- A recipe with no entities and no steps. -/
def emptyRecipe : Recipe := ⟨[], [], [], []⟩

/-- Settings with every display toggle off. -/
def settingsOff : CookSettings := ⟨false, false, false, false, false⟩

/-- Settings showing only the ingredient list. -/
def settingsIngOnly : CookSettings := ⟨false, true, false, false, false⟩

/-- A sample render environment with no siblings. -/
def sampleEnv : RenderEnv := ⟨"recipe".toList, "recipe.cook".toList, [], settingsOff⟩

/-- A 60-second timer occurrence. -/
def timer60 : TimerOcc := ⟨some 60, some "minutes", none⟩

/-- A one-step recipe whose single step holds one 60-second timer. -/
def recipeOneTimer : Recipe := ⟨[], [], [timer60], [⟨[Part.timer timer60]⟩]⟩

/-- A view state in preview mode holding the parsed one-timer recipe. -/
def sampleViewState : CookViewState :=
  ⟨"doc".toList, "doc".toList, some recipeOneTimer, Mode.preview,
    renderPreview settingsOff "recipe".toList "recipe.cook".toList []
      (some recipeOneTimer), true, false⟩

/-- Widget configuration of a timer reference with absent amount and
absent name: `makeTimer(button, 0, '')` with no `.amount` span. -/
def cfgZero : TimerCfg := ⟨0, "", false⟩

/-- C2's failing run: activate a zero-second timer at t=0ms, let it
expire at t=100ms (the alarm starts), re-activate at t=200ms, then
cancel at t=300ms. -/
def cancelAfterAlarm : SysState :=
  clickEv cfgZero
    (clickEv cfgZero
      (tickEv cfgZero (clickEv cfgZero initSys 0 1) 100) 200 2) 300 3

/-- C1's failing run: render the one-timer recipe, activate its widget
at t=0ms (interval id 1), then re-render the preview. -/
def rerenderWhileRunning : PreviewSys :=
  renderPass settingsOff "recipe".toList "recipe.cook".toList []
    (some recipeOneTimer)
    (clickAttached
      (renderPass settingsOff "recipe".toList "recipe.cook".toList []
        (some recipeOneTimer) ⟨[], []⟩)
      0 0 1)

/-- Sibling files of the spec's asset-binding example: `recipe.jpg`,
`recipe.0.png`, `recipe.3.gif` next to `recipe.cook`. -/
def exJpg : TFile := ⟨"recipe".toList, "jpg".toList, "recipe.jpg".toList⟩

/-- `recipe.0.png` of the asset-binding example. -/
def exPng : TFile := ⟨"recipe.0".toList, "png".toList, "recipe.0.png".toList⟩

/-- `recipe.3.gif` of the asset-binding example. -/
def exGif : TFile := ⟨"recipe.3".toList, "gif".toList, "recipe.3.gif".toList⟩

/-- C4's counterexample sibling: `recipe.3x.png`, whose suffix `3x` is
not a numeral yet `parseInt('3x')` is `3`. -/
def exJunk : TFile := ⟨"recipe.3x".toList, "png".toList, "recipe.3x.png".toList⟩

/-- The claim's reading of "`N` parses as a non-negative integer": the
suffix is a plain decimal numeral (nonempty, digits only). -/
def isDecimalNumeral (l : List Char) : Bool :=
  !l.isEmpty && l.all (fun c => (decDigit c).isSome)

/-- The amended characterization of step-image binding: an accepted
raster extension, not the document itself, and a base name that is
exactly the document's base name, one dot, and a dot-free suffix whose
JS-`parseInt` value lands in `[0, nSteps)` at index `s`. -/
def bindsStepB (base docName : List Char) (nSteps : Nat) (s : Nat)
    (f : TFile) : Bool :=
  acceptedExt f.extension && f.name != docName &&
    (if listStartsWith (base ++ ['.']) f.basename then
      (let suffix := f.basename.drop (base.length + 1)
       if ('.' ∈ base) || ('.' ∈ suffix) then false
       else
         match parseIntJS suffix with
         | some k => decide (0 ≤ k ∧ k < (nSteps : Int)) && (k.toNat == s)
         | none => false)
     else false)

/-- The literal condition under which one `forEach` iteration writes
`f` into `stepImg` at index `s` (the code path of cookView.ts lines
337-347, exclusive of the pre-filter). -/
def codeBindsStep (base : List Char) (nSteps : Nat) (s : Nat) (f : TFile) :
    Bool :=
  acceptedExt f.extension && !(f.basename == base) &&
    (match splitOnChar '.' f.basename with
     | [_, p1] =>
       (match parseIntJS p1 with
        | some k => decide (0 ≤ k ∧ k < (nSteps : Int)) && (k.toNat == s)
        | none => false)
     | _ => false)

/-! ## Helper lemmas: section presence in the rendered preview -/

lemma any_if_nil (b : Bool) (l : List RSection) (p : RSection → Bool) :
    ((if b then l else []).any p) = (b && l.any p) := by
  cases b <;> simp

lemma mainImageSeg_any (b : Bindings) (p : RSection → Bool) :
    (mainImageSeg b).any p
      = b.main.elim false (fun f => p (RSection.mainImage f)) := by
  rcases hm : b.main with _ | f <;> simp [mainImageSeg, hm]

lemma totalTimeSeg_any (r : Recipe) (p : RSection → Bool) :
    (totalTimeSeg r).any p
      = (decide (0 < calculateTotalTime r)
          && p (RSection.totalTime (formatTime (calculateTotalTime r) false))) := by
  by_cases h : 0 < calculateTotalTime r <;> simp [totalTimeSeg, h]

lemma renderPreview_any_ing (s : CookSettings) (base docName : List Char)
    (siblings : List TFile) (r : Recipe) :
    (renderPreview s base docName siblings (some r)).any isIngredientsSec
      = s.showIngredientList := by
  simp only [renderPreview, List.any_append, any_if_nil, mainImageSeg_any,
    totalTimeSeg_any, List.any_cons, List.any_nil]
  rcases (bindingsFor s base docName siblings r).main with _ | f <;>
    simp [isIngredientsSec]

lemma renderPreview_any_cw (s : CookSettings) (base docName : List Char)
    (siblings : List TFile) (r : Recipe) :
    (renderPreview s base docName siblings (some r)).any isCookwareSec
      = s.showCookwareList := by
  simp only [renderPreview, List.any_append, any_if_nil, mainImageSeg_any,
    totalTimeSeg_any, List.any_cons, List.any_nil]
  rcases (bindingsFor s base docName siblings r).main with _ | f <;>
    simp [isCookwareSec]

lemma renderPreview_any_tm (s : CookSettings) (base docName : List Char)
    (siblings : List TFile) (r : Recipe) :
    (renderPreview s base docName siblings (some r)).any isTimersSec
      = s.showTimersList := by
  simp only [renderPreview, List.any_append, any_if_nil, mainImageSeg_any,
    totalTimeSeg_any, List.any_cons, List.any_nil]
  rcases (bindingsFor s base docName siblings r).main with _ | f <;>
    simp [isTimersSec]

lemma renderPreview_any_tt (s : CookSettings) (base docName : List Char)
    (siblings : List TFile) (r : Recipe) :
    (renderPreview s base docName siblings (some r)).any isTotalTimeSec
      = (s.showTotalTime && decide (0 < calculateTotalTime r)) := by
  simp only [renderPreview, List.any_append, any_if_nil, mainImageSeg_any,
    totalTimeSeg_any, List.any_cons, List.any_nil]
  rcases (bindingsFor s base docName siblings r).main with _ | f <;>
    simp [isTotalTimeSec]

lemma renderPreview_any_main (s : CookSettings) (base docName : List Char)
    (siblings : List TFile) (r : Recipe) :
    (renderPreview s base docName siblings (some r)).any isMainImageSec
      = (s.showImages && (bindingsFor s base docName siblings r).main.isSome) := by
  simp only [renderPreview, List.any_append, any_if_nil, mainImageSeg_any,
    totalTimeSeg_any, List.any_cons, List.any_nil]
  rcases (bindingsFor s base docName siblings r).main with _ | f <;>
    simp [isMainImageSec]

lemma renderPreview_any_method (s : CookSettings) (base docName : List Char)
    (siblings : List TFile) (r : Recipe) :
    (renderPreview s base docName siblings (some r)).any isMethodSec = true := by
  simp only [renderPreview, List.any_append, any_if_nil, mainImageSeg_any,
    totalTimeSeg_any, List.any_cons, List.any_nil]
  rcases (bindingsFor s base docName siblings r).main with _ | f <;>
    simp [isMethodSec]

/-! ## Theorems: C6 (countdown formatter) -/

/-- C6: the live-countdown formatter renders durations of at least one
hour as `H:MM:SS` with minutes and seconds zero-padded to two digits,
shorter durations as `M:SS`; `45 s ↦ "0:45"` and `3661 s ↦ "1:01:01"`. -/
theorem C6_countdown_format :
    (∀ t : Nat, 3600 ≤ t →
      formatTimeForTimer t
        = toString (t / 3600) ++ ":" ++ pad2 (t % 3600 / 60) ++ ":"
            ++ pad2 (t % 60))
    ∧ (∀ t : Nat, t < 3600 →
        formatTimeForTimer t = toString (t / 60) ++ ":" ++ pad2 (t % 60))
    ∧ (∀ n : Nat, n < 60 → (pad2 n).length = 2)
    ∧ formatTimeForTimer 45 = "0:45"
    ∧ formatTimeForTimer 3661 = "1:01:01" := by
  refine ⟨?_, ?_, ?_, ?_, ?_⟩
  · intro t ht
    have h : 0 < t / 3600 := Nat.div_pos ht (by norm_num)
    simp [formatTimeForTimer, h]
  · intro t ht
    have h : t / 3600 = 0 := Nat.div_eq_of_lt ht
    simp [formatTimeForTimer, h, Nat.mod_eq_of_lt ht]
  · decide
  · rfl
  · rfl

/-- Witness for C6 at concrete inputs. -/
theorem C6_countdown_format_witness :
    formatTimeForTimer 3661
      = toString (3661 / 3600) ++ ":" ++ pad2 (3661 % 3600 / 60) ++ ":"
          ++ pad2 (3661 % 60)
    ∧ formatTimeForTimer 45 = toString (45 / 60) ++ ":" ++ pad2 (45 % 60)
    ∧ (pad2 59).length = 2 :=
  ⟨C6_countdown_format.1 3661 (by norm_num),
   C6_countdown_format.2.1 45 (by norm_num),
   C6_countdown_format.2.2.1 59 (by norm_num)⟩

/-! ## Theorems: C5 (total-time formatter and gating) -/

/-- C5: the summary formatter returns `Xh Ym` when hours are positive,
`Xm` when only minutes are positive, `Xs` otherwise, never appending
seconds without the verbose flag; `125 ↦ "2m"`, `3725 ↦ "1h 2m"`, and a
computed total time of 0 leaves the total-time section out of the
preview. -/
theorem C5_total_time_format :
    (∀ t : Nat, 3600 ≤ t →
      formatTime t false
        = toString (t / 3600) ++ "h " ++ toString (t % 3600 / 60) ++ "m")
    ∧ (∀ t : Nat, t < 3600 → 60 ≤ t →
        formatTime t false = toString (t / 60) ++ "m")
    ∧ (∀ t : Nat, t < 60 → formatTime t false = toString t ++ "s")
    ∧ formatTime 125 false = "2m"
    ∧ formatTime 3725 false = "1h 2m"
    ∧ (∀ (s : CookSettings) (base docName : List Char)
        (siblings : List TFile) (r : Recipe),
        calculateTotalTime r = 0 →
        (renderPreview s base docName siblings (some r)).any isTotalTimeSec
          = false) := by
  refine ⟨?_, ?_, ?_, ?_, ?_, ?_⟩
  · intro t ht
    have h : 0 < t / 3600 := Nat.div_pos ht (by norm_num)
    simp [formatTime, h]
  · intro t ht h60
    have h : t / 3600 = 0 := Nat.div_eq_of_lt ht
    have hm : 0 < t / 60 := Nat.div_pos h60 (by norm_num)
    simp [formatTime, h, Nat.mod_eq_of_lt ht, hm]
  · intro t ht
    have h : t / 3600 = 0 := Nat.div_eq_of_lt (by omega)
    have hm : t / 60 = 0 := Nat.div_eq_of_lt ht
    simp [formatTime, h, Nat.mod_eq_of_lt (show t < 3600 by omega), hm,
      Nat.mod_eq_of_lt ht]
  · rfl
  · rfl
  · intro s base docName siblings r h0
    simp [renderPreview_any_tt, h0]

/-- Witness for C5 at concrete inputs. -/
theorem C5_total_time_format_witness :
    formatTime 3725 false
      = toString (3725 / 3600) ++ "h " ++ toString (3725 % 3600 / 60) ++ "m"
    ∧ formatTime 125 false = toString (125 / 60) ++ "m"
    ∧ formatTime 59 false = toString 59 ++ "s"
    ∧ (renderPreview settingsIngOnly "recipe".toList "recipe.cook".toList []
        (some emptyRecipe)).any isTotalTimeSec = false :=
  ⟨C5_total_time_format.1 3725 (by norm_num),
   C5_total_time_format.2.1 125 (by norm_num) (by norm_num),
   C5_total_time_format.2.2.1 59 (by norm_num),
   C5_total_time_format.2.2.2.2.2 settingsIngOnly "recipe".toList
     "recipe.cook".toList [] emptyRecipe (by rfl)⟩

/-! ## Helper lemmas: step images of the rendered method section -/

lemma stepImagesOf_append (a b : List RSection) :
    stepImagesOf (a ++ b) = stepImagesOf a ++ stepImagesOf b := by
  simp [stepImagesOf]

lemma stepImagesOf_if_ing (b : Bool) (x : List ListItem) :
    stepImagesOf (if b then [RSection.ingredients x] else []) = [] := by
  cases b <;> simp [stepImagesOf]

lemma stepImagesOf_if_cw (b : Bool) (x : List ListItem) :
    stepImagesOf (if b then [RSection.cookware x] else []) = [] := by
  cases b <;> simp [stepImagesOf]

lemma stepImagesOf_if_tm (b : Bool) (x : List ListItem) :
    stepImagesOf (if b then [RSection.timers x] else []) = [] := by
  cases b <;> simp [stepImagesOf]

lemma stepImagesOf_mainSeg (c : Bool) (b : Bindings) :
    stepImagesOf (if c then mainImageSeg b else []) = [] := by
  cases c
  · simp [stepImagesOf]
  · rcases hm : b.main with _ | f <;> simp [stepImagesOf, mainImageSeg, hm]

lemma stepImagesOf_ttSeg (c : Bool) (r : Recipe) :
    stepImagesOf (if c then totalTimeSeg r else []) = [] := by
  cases c
  · simp [stepImagesOf]
  · by_cases h : 0 < calculateTotalTime r <;> simp [stepImagesOf, totalTimeSeg, h]

lemma stepImagesOf_method (l : List RStep) :
    stepImagesOf [RSection.method l] = l.map RStep.image := by
  simp [stepImagesOf]

lemma renderSteps_map_image (sh : Bool) (b : Bindings) (l : List Step)
    (i : Nat) :
    (renderSteps sh b i l).map RStep.image
      = (List.range l.length).map
          (fun j => if sh then b.stepImg (i + j) else none) := by
  induction l generalizing i with
  | nil => simp [renderSteps]
  | cons st rest ih =>
    simp only [renderSteps, List.map_cons, List.length_cons,
      List.range_succ_eq_map, List.map_map, ih (i + 1)]
    have h3 : ((fun j => if sh then b.stepImg (i + j) else none) ∘ Nat.succ)
        = (fun j => if sh then b.stepImg (i + 1 + j) else none) := by
      funext j
      have h2 : i + (j + 1) = i + 1 + j := by omega
      simp [Function.comp, h2]
    rw [h3]
    simp

lemma stepImagesOf_renderPreview (s : CookSettings) (base docName : List Char)
    (siblings : List TFile) (r : Recipe) :
    stepImagesOf (renderPreview s base docName siblings (some r))
      = (List.range r.steps.length).map
          (fun j => if s.showImages then
            (bindingsFor s base docName siblings r).stepImg j else none) := by
  simp only [renderPreview, stepImagesOf_append, stepImagesOf_if_ing,
    stepImagesOf_if_cw, stepImagesOf_if_tm, stepImagesOf_mainSeg,
    stepImagesOf_ttSeg, stepImagesOf_method, List.nil_append,
    renderSteps_map_image, Nat.zero_add]

/-! ## Theorems: C3 (section gating, corrected) -/

/-- C3 counterexample: with the ingredient toggle on and an empty
ingredient list, the ingredients section is still rendered, so a
section's presence does not require its list to be non-empty as the
claim states. -/
theorem C3_counterexample :
    (renderPreview settingsIngOnly "recipe".toList "recipe.cook".toList []
      (some emptyRecipe)).any isIngredientsSec = true
    ∧ emptyRecipe.ingredients = [] := by
  exact ⟨rfl, rfl⟩

/-- C3 amended: the ingredients, cookware, and timers aggregate sections
appear iff their toggle is on (regardless of list emptiness); the
total-time section appears iff its toggle is on and the computed total
time is strictly positive; the main-image section appears iff the images
toggle is on and a main binding exists; each step image appears iff the
images toggle is on and that step has a binding; the method section is
always emitted; and without a model the tree is empty. -/
theorem C3_section_gating :
    ∀ (s : CookSettings) (base docName : List Char) (siblings : List TFile)
      (r : Recipe),
    ((renderPreview s base docName siblings (some r)).any isIngredientsSec
      = s.showIngredientList)
    ∧ ((renderPreview s base docName siblings (some r)).any isCookwareSec
      = s.showCookwareList)
    ∧ ((renderPreview s base docName siblings (some r)).any isTimersSec
      = s.showTimersList)
    ∧ ((renderPreview s base docName siblings (some r)).any isTotalTimeSec
      = (s.showTotalTime && decide (0 < calculateTotalTime r)))
    ∧ ((renderPreview s base docName siblings (some r)).any isMainImageSec
      = (s.showImages && (bindingsFor s base docName siblings r).main.isSome))
    ∧ ((renderPreview s base docName siblings (some r)).any isMethodSec = true)
    ∧ (stepImagesOf (renderPreview s base docName siblings (some r))
      = (List.range r.steps.length).map
          (fun j => if s.showImages then
            (bindingsFor s base docName siblings r).stepImg j else none))
    ∧ renderPreview s base docName siblings none = [] := by
  intro s base docName siblings r
  exact ⟨renderPreview_any_ing s base docName siblings r,
    renderPreview_any_cw s base docName siblings r,
    renderPreview_any_tm s base docName siblings r,
    renderPreview_any_tt s base docName siblings r,
    renderPreview_any_main s base docName siblings r,
    renderPreview_any_method s base docName siblings r,
    stepImagesOf_renderPreview s base docName siblings r,
    rfl⟩

/-! ## Theorems: C7 (setViewData path equivalence) -/

/-- C7: `setViewData(text, resetCursor)` behaves identically for both
values of the flag: the editor document is wholesale replaced by the
text, the model is re-parsed from it, the mode is untouched, and a
re-render happens iff the current mode is preview. -/
theorem C7_setViewData_paths_equal :
    ∀ (parse : List Char → Recipe) (env : RenderEnv) (st : CookViewState)
      (d : List Char) (b : Bool),
    setViewData parse env st d true = setViewData parse env st d false
    ∧ (setViewData parse env st d b).data = d
    ∧ (setViewData parse env st d b).editorDoc = d
    ∧ (setViewData parse env st d b).recipe = some (parse d)
    ∧ (setViewData parse env st d b).currentView = st.currentView
    ∧ (setViewData parse env st d b).previewSections
        = (if st.currentView = Mode.preview then
            renderPreview env.settings env.base env.docName env.siblings
              (some (parse d))
          else st.previewSections) := by
  intro parse env st d b
  have hdoc : cmReplace st.editorDoc 0 st.editorDoc.length d = d := by
    simp [cmReplace]
  refine ⟨rfl, ?_, ?_, ?_, ?_, ?_⟩ <;>
    cases b <;> by_cases h : st.currentView = Mode.preview <;>
      simp [setViewData, h, hdoc]

/-! ## Theorems: C9 (clear keeps the parsed model) -/

/-- C9: `clear()` empties the rendered preview, the editor document and
the local text, but leaves the parsed recipe in place, so a subsequent
switch to preview renders the stale recipe — in particular a non-empty
tree for the sample state, not an empty one. -/
theorem C9_clear_keeps_recipe :
    ∀ (env : RenderEnv) (st : CookViewState),
    (clearView st).recipe = st.recipe
    ∧ (clearView st).previewSections = []
    ∧ (clearView st).editorDoc = []
    ∧ (clearView st).data = []
    ∧ (clearView st).currentView = st.currentView
    ∧ ((switchMode env (clearView st) Mode.preview).previewSections
        = renderPreview env.settings env.base env.docName env.siblings
            st.recipe)
    ∧ (switchMode sampleEnv (clearView sampleViewState) Mode.preview
        ).previewSections ≠ [] := by
  intro env st
  refine ⟨rfl, rfl, ?_, rfl, rfl, rfl, ?_⟩
  · simp [clearView, cmReplace]
  · decide

/-! ## Helper lemmas: the rounded countdown -/

lemma jsRoundDiv1000_nonpos (d : Int) (h : d ≤ 0) : jsRoundDiv1000 d ≤ 0 := by
  unfold jsRoundDiv1000
  rw [Int.fdiv_eq_ediv _ (by norm_num)]
  rcases le_or_lt 0 (d + 500) with h0 | h0
  · rw [Int.ediv_eq_zero_of_lt h0 (by omega)]
  · exact le_of_lt (Int.ediv_neg' h0 (by norm_num))

/-! ## Theorems: C8 (widget state invariant) -/

/-- C8: in every state a timer widget can reach through its event
handlers, the deadline is absent exactly when the tick handle is
absent. -/
theorem C8_widget_invariant (cfg : TimerCfg) (s : SysState)
    (h : Reach cfg s) : s.w.endTs = none ↔ s.w.interval = none := by
  induction h with
  | init => simp [initSys, initWidget]
  | click s now newId _ ih =>
    by_cases he : s.w.endTs = none
    · simp [clickEv, clickW, he]
    · simp [clickEv, clickW, he, stopW]
  | tick s now _ hint ih =>
    rcases he : s.w.endTs with _ | e
    · exact absurd (ih.mp he) hint
    · simp only [tickEv, he]
      by_cases hr : jsRoundDiv1000 (e - now) ≤ 0
      · simp [hr, stopW]
      · simp [hr, he, hint]

/-- Witness for C8: the invariant holds at the initial widget state. -/
theorem C8_widget_invariant_witness :
    initSys.w.endTs = none ↔ initSys.w.interval = none :=
  C8_widget_invariant ⟨60, "timer", true⟩ initSys Reach.init

/-! ## Theorems: C10 (absent-amount timer expires on first tick) -/

/-- C10: a timer reference with absent amount is bound with zero
seconds and an empty default name; activating such a widget puts the
deadline at the click instant, so any tick at or after it computes a
non-positive remaining time and immediately expires the widget,
starting the alarm and emitting the completion notification. -/
theorem C10_absent_amount_timer :
    (∀ u : Option String,
      renderPart (Part.timer ⟨none, u, none⟩)
        = Inline.timerRef none none ⟨0, "", false⟩)
    ∧ (∀ cfg : TimerCfg, cfg.seconds = 0 →
        ∀ (t0 t1 : Int) (newId : Nat),
        (clickEv cfg initSys t0 newId).w.endTs = some t0
        ∧ (t0 ≤ t1 →
            tickEv cfg (clickEv cfg initSys t0 newId) t1
              = ⟨⟨none, none, false⟩, ⟨true, false⟩, [notifBody cfg],
                  none⟩)) := by
  constructor
  · intro u; rfl
  · intro cfg h0 t0 t1 newId
    constructor
    · simp [clickEv, clickW, initSys, initWidget, h0]
    · intro hle
      have hrem : jsRoundDiv1000 (t0 - t1) ≤ 0 :=
        jsRoundDiv1000_nonpos _ (by omega)
      simp [tickEv, clickEv, clickW, initSys, initWidget, h0, stopW, hrem]

/-- Witness for C10 at a concrete zero-second widget. -/
theorem C10_absent_amount_timer_witness :
    renderPart (Part.timer ⟨none, some "min", none⟩)
      = Inline.timerRef none none ⟨0, "", false⟩
    ∧ (clickEv cfgZero initSys 1000 1).w.endTs = some 1000
    ∧ tickEv cfgZero (clickEv cfgZero initSys 1000 1) 1100
        = ⟨⟨none, none, false⟩, ⟨true, false⟩, [notifBody cfgZero], none⟩ :=
  ⟨C10_absent_amount_timer.1 (some "min"),
   (C10_absent_amount_timer.2 cfgZero rfl 1000 1100 1).1,
   (C10_absent_amount_timer.2 cfgZero rfl 1000 1100 1).2 (by norm_num)⟩

/-! ## Theorems: C2 (cancellation does not stop the alarm — code bug) -/

/-- C2 failing run evaluated on the embedded code: cancelling a Running
widget does clear the schedule, the `running` mark and the deadline,
and stops `timerAudio` — but an alarm started by an earlier expiry is
still playing after the cancellation, because `stop()` calls
`timerAudio.stop()` (a sound the view never plays) and never
`alarmAudio.stop()`. -/
theorem C2_cancel_leaves_alarm_playing :
    cancelAfterAlarm.w.endTs = none
    ∧ cancelAfterAlarm.w.interval = none
    ∧ cancelAfterAlarm.w.runningMark = false
    ∧ cancelAfterAlarm.audio.timerPlaying = false
    ∧ cancelAfterAlarm.audio.alarmPlaying = true := by
  exact ⟨rfl, rfl, rfl, rfl, rfl⟩

/-! ## Theorems: C1 (re-render leaks the running schedule — code bug) -/

/-- C1 failing run evaluated on the embedded code: after activating the
single timer widget and re-rendering the preview, the discarded
widget's interval is still scheduled (one live schedule, not zero); the
freshly spawned widget is idle. -/
theorem C1_rerender_leaks_schedule :
    liveSchedules rerenderWhileRunning = 1
    ∧ rerenderWhileRunning.attached.map (fun wc => wc.2.interval) = [none]
    ∧ rerenderWhileRunning.detached.map (fun wc => wc.2.interval)
        = [some 1] := by
  exact ⟨rfl, rfl, rfl⟩

/-! ## Helper lemmas: `splitOnChar` and `listStartsWith` -/

lemma splitOnChar_ne_nil (c : Char) (l : List Char) : splitOnChar c l ≠ [] := by
  induction l with
  | nil => simp [splitOnChar]
  | cons x xs ih =>
    simp only [splitOnChar]
    rcases h : splitOnChar c xs with _ | ⟨h0, t0⟩
    · simp
    · by_cases hx : x = c <;> simp [hx]

lemma splitOnChar_nodot (c : Char) (a : List Char) (ha : c ∉ a) :
    splitOnChar c a = [a] := by
  induction a with
  | nil => rfl
  | cons x xs ih =>
    have hx : ¬x = c := fun h => ha (h ▸ List.mem_cons_self x xs)
    have hxs : c ∉ xs := fun h => ha (List.mem_cons_of_mem _ h)
    simp only [splitOnChar, ih hxs, if_neg hx]

lemma splitOnChar_append_pair (c : Char) (a b : List Char) (ha : c ∉ a)
    (hb : c ∉ b) : splitOnChar c (a ++ c :: b) = [a, b] := by
  induction a with
  | nil =>
    simp [splitOnChar, splitOnChar_nodot c b hb]
  | cons x xs ih =>
    have hx : ¬x = c := fun h => ha (h ▸ List.mem_cons_self x xs)
    have hxs : c ∉ xs := fun h => ha (List.mem_cons_of_mem _ h)
    simp [splitOnChar, List.cons_append, List.append_eq, ih hxs, if_neg hx]

lemma splitOnChar_single_structure (c : Char) (l a : List Char)
    (h : splitOnChar c l = [a]) : l = a ∧ c ∉ a := by
  induction l generalizing a with
  | nil =>
    obtain ⟨h1, -⟩ := List.cons.inj h
    exact ⟨h1, by rw [← h1]; simp⟩
  | cons x xs ih =>
    rcases hs : splitOnChar c xs with _ | ⟨h0, t0⟩
    · exact absurd hs (splitOnChar_ne_nil c xs)
    · by_cases hx : x = c
      · simp only [splitOnChar, hs, if_pos hx] at h
        exact absurd (List.cons.inj h).2 (List.cons_ne_nil h0 t0)
      · simp only [splitOnChar, hs, if_neg hx] at h
        obtain ⟨hxa, ht0⟩ := List.cons.inj h
        subst ht0
        obtain ⟨hxsh, hch⟩ := ih h0 hs
        refine ⟨by rw [← hxa, hxsh], ?_⟩
        rw [← hxa]
        intro hmem
        rcases List.mem_cons.mp hmem with h1 | h1
        · exact hx h1.symm
        · exact hch h1

lemma splitOnChar_pair_structure (c : Char) (l a b : List Char)
    (h : splitOnChar c l = [a, b]) : l = a ++ c :: b ∧ c ∉ a ∧ c ∉ b := by
  induction l generalizing a with
  | nil =>
    obtain ⟨-, h2⟩ := List.cons.inj h
    exact absurd h2.symm (List.cons_ne_nil b [])
  | cons x xs ih =>
    rcases hs : splitOnChar c xs with _ | ⟨h0, t0⟩
    · exact absurd hs (splitOnChar_ne_nil c xs)
    · by_cases hx : x = c
      · simp only [splitOnChar, hs, if_pos hx] at h
        obtain ⟨h1, h2⟩ := List.cons.inj h
        obtain ⟨h3, h4⟩ := List.cons.inj h2
        subst h4
        rw [h3] at hs
        obtain ⟨hxs, hcb⟩ := splitOnChar_single_structure c xs b hs
        subst hx
        exact ⟨by rw [← h1, hxs, List.nil_append], by rw [← h1]; simp, hcb⟩
      · simp only [splitOnChar, hs, if_neg hx] at h
        obtain ⟨h1, h2⟩ := List.cons.inj h
        subst h2
        obtain ⟨hxs, hch0, hcb⟩ := ih h0 hs
        refine ⟨by rw [← h1, hxs, List.cons_append], ?_, hcb⟩
        rw [← h1]
        intro hmem
        rcases List.mem_cons.mp hmem with hm | hm
        · exact hx hm.symm
        · exact hch0 hm

lemma splitOnChar_pair_iff (c : Char) (l a b : List Char) :
    splitOnChar c l = [a, b] ↔ (l = a ++ c :: b ∧ c ∉ a ∧ c ∉ b) := by
  constructor
  · exact splitOnChar_pair_structure c l a b
  · rintro ⟨rfl, ha, hb⟩
    exact splitOnChar_append_pair c a b ha hb

lemma listStartsWith_iff (p l : List Char) :
    listStartsWith p l = true ↔ ∃ t, l = p ++ t := by
  induction p generalizing l with
  | nil => simp [listStartsWith]
  | cons a p ih =>
    cases l with
    | nil => simp [listStartsWith]
    | cons x xs =>
      simp only [listStartsWith, Bool.and_eq_true, beq_iff_eq, ih,
        List.cons_append]
      constructor
      · rintro ⟨rfl, t, rfl⟩; exact ⟨t, rfl⟩
      · rintro ⟨t, ht⟩
        obtain ⟨h1, h2⟩ := List.cons.inj ht
        exact ⟨h1.symm, t, h2⟩

lemma listStartsWith_append (p t : List Char) :
    listStartsWith p (p ++ t) = true :=
  (listStartsWith_iff p (p ++ t)).mpr ⟨t, rfl⟩

lemma startsWith_dot_forces (c : Char) (base p0 p1 : List Char)
    (h : listStartsWith (base ++ [c]) (p0 ++ c :: p1) = true)
    (h0 : c ∉ p0) (h1 : c ∉ p1) : p0 = base := by
  obtain ⟨t, ht⟩ := (listStartsWith_iff _ _).mp h
  have ht' : p0 ++ c :: p1 = base ++ c :: t := by
    rw [ht, List.append_assoc]; rfl
  rcases lt_trichotomy p0.length base.length with hlt | heq | hgt
  · exfalso
    have hd := congrArg (List.drop p0.length) ht'
    rw [List.drop_left] at hd
    rw [List.drop_append_of_le_length (le_of_lt hlt)] at hd
    have hne : base.drop p0.length ≠ [] := by
      intro hnil
      have := congrArg List.length hnil
      simp at this
      omega
    obtain ⟨b0, rest, hbr⟩ := List.exists_cons_of_ne_nil hne
    rw [hbr, List.cons_append] at hd
    have hp1 : p1 = rest ++ c :: t := (List.cons.inj hd).2
    exact h1 (by
      rw [hp1]
      exact List.mem_append_right _ (List.mem_cons_self c t))
  · exact (List.append_inj ht' heq).1
  · exfalso
    have hd := congrArg (List.drop base.length) ht'
    rw [List.drop_append_of_le_length (le_of_lt hgt)] at hd
    rw [List.drop_left] at hd
    have hne : p0.drop base.length ≠ [] := by
      intro hnil
      have := congrArg List.length hnil
      simp at this
      omega
    obtain ⟨d0, rest, hbr⟩ := List.exists_cons_of_ne_nil hne
    rw [hbr, List.cons_append] at hd
    have hd0 : d0 = c := (List.cons.inj hd).1
    refine h0 ?_
    have hmem : d0 ∈ p0 :=
      List.drop_subset _ _ (by rw [hbr]; exact List.mem_cons_self d0 rest)
    rwa [hd0] at hmem

/-! ## Helper lemmas: characterizing the step-image binding condition -/

lemma bindsStepB_eq_true_iff (base docName : List Char) (n s : Nat)
    (f : TFile) :
    bindsStepB base docName n s f = true
      ↔ (acceptedExt f.extension = true ∧ f.name ≠ docName
          ∧ ∃ suf k, f.basename = base ++ '.' :: suf ∧ '.' ∉ base ∧ '.' ∉ suf
              ∧ parseIntJS suf = some k ∧ (0 ≤ k ∧ k < (n : Int))
              ∧ k.toNat = s) := by
  constructor
  · intro h
    simp only [bindsStepB, Bool.and_eq_true] at h
    obtain ⟨⟨hext, hname'⟩, hrest⟩ := h
    have hname : f.name ≠ docName := by simpa using hname'
    refine ⟨hext, hname, ?_⟩
    by_cases hsw : listStartsWith (base ++ ['.']) f.basename = true
    swap
    · rw [if_neg hsw] at hrest; exact absurd hrest (by simp)
    obtain ⟨t, hbn0⟩ := (listStartsWith_iff _ _).mp hsw
    have hbn : f.basename = base ++ '.' :: t := by
      rw [hbn0, List.append_assoc]; rfl
    have hdrop : f.basename.drop (base.length + 1) = t := by
      rw [hbn0]
      exact List.drop_left' (by simp)
    rw [if_pos hsw, hdrop] at hrest
    by_cases hdb : ('.' : Char) ∈ base
    · simp [hdb] at hrest
    by_cases hdt : ('.' : Char) ∈ t
    · simp [hdt] at hrest
    simp [hdb, hdt] at hrest
    split at hrest
    next k heq =>
      have hrest' : (0 ≤ k ∧ k < (n : Int)) ∧ k.toNat = s := by
        simpa using hrest
      exact ⟨t, k, hbn, hdb, hdt, heq, hrest'.1, hrest'.2⟩
    next heq => exact absurd hrest (by simp)
  · rintro ⟨hext, hname, suf, k, hbn, hdb, hds, hpi, hrange, hks⟩
    have hsw : listStartsWith (base ++ ['.']) f.basename = true := by
      rw [hbn, show base ++ '.' :: suf = (base ++ ['.']) ++ suf by simp]
      exact listStartsWith_append _ _
    have hdrop : f.basename.drop (base.length + 1) = suf := by
      rw [hbn, show base ++ '.' :: suf = (base ++ ['.']) ++ suf by simp]
      exact List.drop_left' (by simp)
    simp only [bindsStepB, Bool.and_eq_true]
    refine ⟨⟨hext, by simpa using hname⟩, ?_⟩
    rw [if_pos hsw, hdrop]
    simp [hdb, hds, hpi, hrange.1, hrange.2, hks]

lemma applyFile_stepImg (base : List Char) (n : Nat) (b : Bindings)
    (f : TFile) (s : Nat) :
    (applyFile base n b f).stepImg s
      = if codeBindsStep base n s f = true then some f else b.stepImg s := by
  by_cases hext : acceptedExt f.extension = true
  swap
  · simp [applyFile, codeBindsStep, hext]
  by_cases hmain : (f.basename == base) = true
  · simp [applyFile, codeBindsStep, hext, hmain]
  rcases hsp : splitOnChar '.' f.basename with _ | ⟨p0, t0⟩
  · exact absurd hsp (splitOnChar_ne_nil _ _)
  rcases t0 with _ | ⟨p1, t1⟩
  · simp [applyFile, codeBindsStep, hext, hmain, hsp]
  rcases t1 with _ | ⟨p2, t2⟩
  swap
  · simp [applyFile, codeBindsStep, hext, hmain, hsp]
  rcases hpi : parseIntJS p1 with _ | k
  · simp [applyFile, codeBindsStep, hext, hmain, hsp, hpi]
  by_cases hrange : 0 ≤ k ∧ k < (n : Int)
  swap
  · simp [applyFile, codeBindsStep, hext, hmain, hsp, hpi, hrange]
  by_cases hks : k.toNat = s
  · simp [applyFile, codeBindsStep, hext, hmain, hsp, hpi, hrange, hks,
      Function.update_apply]
  · simp [applyFile, codeBindsStep, hext, hmain, hsp, hpi, hrange, hks,
      Function.update_apply, Ne.symm hks]

lemma codeBindsStep_eq_bindsStepB (base docName : List Char) (n s : Nat)
    (f : TFile) (hq : siblingFilter base docName f = true) :
    codeBindsStep base n s f = bindsStepB base docName n s f := by
  have hiff : codeBindsStep base n s f = true
      ↔ bindsStepB base docName n s f = true := by
    constructor
    · intro h
      simp only [codeBindsStep, Bool.and_eq_true] at h
      obtain ⟨⟨hext, hmain'⟩, hrest⟩ := h
      have hmain : f.basename ≠ base := by simpa using hmain'
      simp only [siblingFilter, Bool.and_eq_true, Bool.or_eq_true] at hq
      obtain ⟨hor, hname'⟩ := hq
      have hname : f.name ≠ docName := by simpa using hname'
      have hsw : listStartsWith (base ++ ['.']) f.basename = true := by
        rcases hor with hh | hh
        · exact absurd (by simpa using hh) hmain
        · exact hh
      split at hrest
      next p0 p1 hsp =>
        split at hrest
        next k hpi =>
          rw [Bool.and_eq_true] at hrest
          obtain ⟨hrange', hks'⟩ := hrest
          obtain ⟨hbn, hdp0, hdp1⟩ :=
            splitOnChar_pair_structure '.' f.basename p0 p1 hsp
          have hp0 : p0 = base :=
            startsWith_dot_forces '.' base p0 p1 (hbn ▸ hsw) hdp0 hdp1
          rw [hp0] at hbn hdp0
          exact (bindsStepB_eq_true_iff base docName n s f).mpr
            ⟨hext, hname, p1, k, hbn, hdp0, hdp1, hpi,
              by simpa using hrange', by simpa using hks'⟩
        next hpi => exact absurd hrest (by simp)
      next hshape => exact absurd hrest (by simp)
    · intro h
      obtain ⟨hext, hname, suf, k, hbn, hdb, hds, hpi, hrange, hks⟩ :=
        (bindsStepB_eq_true_iff base docName n s f).mp h
      have hsp : splitOnChar '.' f.basename = [base, suf] := by
        rw [hbn]; exact splitOnChar_append_pair '.' base suf hdb hds
      have hmain : (f.basename == base) = false := by
        rw [beq_eq_false_iff_ne]
        intro he
        rw [he] at hbn
        have hlen := congrArg List.length hbn
        simp at hlen
      simp only [codeBindsStep, hext, hmain, hsp, hpi, Bool.not_false,
        Bool.and_true, Bool.true_and]
      simp [hrange.1, hrange.2, hks]
  cases hc : codeBindsStep base n s f <;>
    cases hb : bindsStepB base docName n s f
  · rfl
  · exact absurd (hiff.mpr hb) (by simp [hc])
  · exact absurd (hiff.mp hc) (by simp [hb])
  · rfl

lemma bindsStepB_implies_filter (base docName : List Char) (n s : Nat)
    (f : TFile) (h : bindsStepB base docName n s f = true) :
    siblingFilter base docName f = true := by
  obtain ⟨hext, hname, suf, k, hbn, hdb, hds, -, -, -⟩ :=
    (bindsStepB_eq_true_iff base docName n s f).mp h
  simp only [siblingFilter, Bool.and_eq_true, Bool.or_eq_true]
  refine ⟨Or.inr ?_, by simpa using hname⟩
  rw [hbn, show base ++ '.' :: suf = (base ++ ['.']) ++ suf by simp]
  exact listStartsWith_append _ _

lemma foldl_applyFile_stepImg (base : List Char) (n s : Nat)
    (m : List TFile) :
    ∀ b : Bindings,
    ((m.foldl (applyFile base n) b).stepImg s)
      = (match m.reverse.find? (fun f => codeBindsStep base n s f) with
         | some f => some f
         | none => b.stepImg s) := by
  induction m with
  | nil => intro b; rfl
  | cons f m ih =>
    intro b
    simp only [List.foldl_cons, List.reverse_cons, List.find?_append,
      ih (applyFile base n b f)]
    rcases hfind : m.reverse.find? (fun g => codeBindsStep base n s g)
      with _ | g
    · simp only [Option.none_or]
      rw [applyFile_stepImg]
      cases hbb : codeBindsStep base n s f <;> simp [List.find?, hbb]
    · simp

lemma find?_congr_mem {α : Type} (p q' : α → Bool) (l : List α)
    (h : ∀ a ∈ l, p a = q' a) : l.find? p = l.find? q' := by
  induction l with
  | nil => rfl
  | cons a l ih =>
    have ha := h a (List.mem_cons_self a l)
    cases hq : q' a <;>
      simp [List.find?_cons, ha, hq,
        ih (fun b hb => h b (List.mem_cons_of_mem a hb))]

lemma find?_filter_eq {α : Type} (p q : α → Bool)
    (himp : ∀ a, p a = true → q a = true) (l : List α) :
    (l.filter q).find? p = l.find? p := by
  induction l with
  | nil => rfl
  | cons a l ih =>
    cases hq : q a
    · have hp : p a = false := by
        cases hp : p a
        · rfl
        · exact absurd (himp a hp) (by simp [hq])
      simp [List.filter_cons, hq, List.find?_cons, hp, ih]
    · cases hp : p a <;> simp [List.filter_cons, hq, List.find?_cons, hp, ih]

/-! ## Theorems: C4 (step-image binding, corrected) -/

/-- C4 counterexample: the sibling `recipe.3x.png` has a suffix that is
not a decimal numeral, yet the code binds it as step 3's image for a
4-step recipe (`parseInt('3x') = 3`), so "malformed suffixes are never
bound" fails as stated. -/
theorem C4_counterexample :
    (computeBindings "recipe".toList "recipe.cook".toList 4 [exJunk]).stepImg 3
      = some exJunk
    ∧ isDecimalNumeral "3x".toList = false := by
  exact ⟨rfl, rfl⟩

/-- C4 amended: a sibling is bound as step `s`'s image iff it has an
accepted raster extension, is not the document itself, and its base
name is exactly the document's base name, one dot, and a dot-free
suffix whose JS-`parseInt` value (leading integer, trailing junk
ignored) lands in `[0, stepCount)` at `s` — the last such sibling in
order wins.  The spec's concrete example binds a main image and a
step-0 image only. -/
theorem C4_step_image_binding :
    (∀ (base docName : List Char) (n : Nat) (siblings : List TFile) (s : Nat),
      (computeBindings base docName n siblings).stepImg s
        = siblings.reverse.find? (fun f => bindsStepB base docName n s f))
    ∧ (computeBindings "recipe".toList "recipe.cook".toList 2
        [exJpg, exPng, exGif]).main = some exJpg
    ∧ (computeBindings "recipe".toList "recipe.cook".toList 2
        [exJpg, exPng, exGif]).stepImg 0 = some exPng
    ∧ (computeBindings "recipe".toList "recipe.cook".toList 2
        [exJpg, exPng, exGif]).stepImg 1 = none := by
  refine ⟨?_, rfl, rfl, rfl⟩
  intro base docName n siblings s
  unfold computeBindings
  rw [foldl_applyFile_stepImg]
  rw [show (siblings.filter (siblingFilter base docName)).reverse
        = siblings.reverse.filter (siblingFilter base docName) from
      (List.filter_reverse _ _).symm]
  rw [find?_congr_mem _ (fun f => bindsStepB base docName n s f) _
      (fun f hf => codeBindsStep_eq_bindsStepB base docName n s f
        (List.mem_filter.mp hf).2)]
  rw [find?_filter_eq _ _
      (fun f hf => bindsStepB_implies_filter base docName n s f hf)]
  rcases hfind : siblings.reverse.find? (fun f => bindsStepB base docName n s f)
    with _ | g
  · simp [noBindings]
  · simp

end Cook
